import Mathlib

/-!
Shallow embedding of the `filecat` command-line utility (src/main.rs) and
verification of its specification claims.

Bytes are modelled as `Nat` (the program only ever produces values < 256 from
`u8`), characters written to the output sink or the log stream as `Char`, and
strings as `List Char`.  The external collaborators (the `glob` crate's
pattern compilation/matching and filesystem enumeration, the `colored` crate,
and the OS file primitives) are modelled as explicit parameters or as a
concrete filesystem tree, exactly at the boundary where the source calls them.
-/

namespace Filecat

/-! ## Byte predicates (from `FileCat::is_text_file` and `print_content`) -/

/-- Rust `u8::is_ascii_graphic`: `b'!'..=b'~'`, i.e. `0x21..=0x7e`. -/
def isAsciiGraphicB (b : Nat) : Bool :=
  decide (33 ≤ b) && decide (b ≤ 126)

/-- Rust `u8::is_ascii_whitespace`: space, tab, newline, form feed, carriage return. -/
def isAsciiWhitespaceB (b : Nat) : Bool :=
  b == 32 || b == 9 || b == 10 || b == 12 || b == 13

/-- `FileCat::is_text_file` (main.rs:254-258): every byte is ASCII graphic,
ASCII whitespace, or a carriage return. -/
def isTextFile (content : List Nat) : Bool :=
  content.all (fun b => isAsciiGraphicB b || isAsciiWhitespaceB b || b == 13)

/-! ## Hex dump (`FileCat::print_hex`, main.rs:260-271) -/

/-- Minimal lowercase hex digits of `n`, most significant first, as printed by
Rust's `\x7b:x\x7d` formatting.  Structured with an explicit fuel argument
(`fuel = n` always suffices since the value shrinks by division by 16). -/
def hexCharsGo : Nat → Nat → List Char
  | 0, n => [Nat.digitChar (n % 16)]
  | fuel + 1, n => if n < 16 then [Nat.digitChar n] else hexCharsGo fuel (n / 16) ++ [Nat.digitChar (n % 16)]

/-- Lowercase hex representation of `n` (no padding). -/
def hexChars (n : Nat) : List Char := hexCharsGo n n

/-- Rust `\x7b:08x\x7d`: lowercase hex, left-padded with zeros to width 8. -/
def offsetPad (n : Nat) : List Char :=
  List.replicate (8 - (hexChars n).length) '0' ++ hexChars n

/-- The row-offset field of `print_hex`: `write!(output, "\x7b:08x\x7d  ", i)`,
the padded offset followed by two spaces. -/
def offsetField (n : Nat) : List Char := offsetPad n ++ [' ', ' ']

/-- One byte field of `print_hex`: `write!(output, "\x7b:02x\x7d ", byte)`, two
lowercase hex digits followed by one space (a `u8` is always < 256, so the
width-2 zero padding yields exactly the two digits below). -/
def byteField (b : Nat) : List Char :=
  [Nat.digitChar (b / 16 % 16), Nat.digitChar (b % 16), ' ']

/-- The loop body of `print_hex`: at every index divisible by 16 a new row
starts (preceded by a newline except for the very first row) with its offset
field; every byte contributes its byte field. -/
def printHexAux : Nat → List Nat → List Char
  | _, [] => []
  | i, b :: rest =>
    (if i % 16 = 0 then (if i = 0 then [] else ['\n']) ++ offsetField i else [])
      ++ byteField b ++ printHexAux (i + 1) rest

/-- `FileCat::print_hex`: the enumerated loop followed by the final `writeln!`. -/
def printHex (content : List Nat) : List Char := printHexAux 0 content ++ ['\n']

/-! ## Content rendering (`FileCat::print_content`, main.rs:273-292) -/

/-- A byte that `print_content` passes through literally:
`is_ascii_graphic`, `\n`, `\t`, space, or `\r`. -/
def isCleanByte (b : Nat) : Bool :=
  isAsciiGraphicB b || b == 10 || b == 9 || b == 32 || b == 13

/-- Models Rust's `\x7b:?\x7d` (Debug) formatting of `byte as char` for the bytes
that can actually reach the escape branch of `print_content` (control
characters other than tab/newline/CR, DEL, and high-bit bytes): a quoted
minimal `\u`-escape for non-printable characters; the Latin-1 characters
U+00A0..U+00FF other than the soft hyphen are modelled as printable and
emitted literally (this approximates the standard library's Unicode
printability table; no claim's statement depends on this branch). -/
def charDebugRepr (b : Nat) : List Char :=
  if 160 ≤ b && b ≤ 255 && !(b == 173) then ['\'', Char.ofNat b, '\'']
  else '\'' :: '\\' :: 'u' :: '\x7b' :: hexChars b ++ ['\x7d', '\'']

/-- One byte of the non-verbose branch of `print_content`: clean bytes are
written as the literal character, all others as the Debug representation of
`byte as char` followed by a space. -/
def pcByte (b : Nat) : List Char :=
  if isCleanByte b then [Char.ofNat b] else charDebugRepr b ++ [' ']

/-- Whether a byte is in `0x80..=0xbf`, i.e. a UTF-8 continuation byte. -/
def isContByte (c : Nat) : Bool := decide (128 ≤ c) && decide (c ≤ 191)

/-- The UTF-8 replacement character emitted by lossy decoding. -/
def replChar : Char := '�'

/-- Models Rust `String::from_utf8_lossy`: decode well-formed UTF-8 scalar
sequences and substitute U+FFFD for each maximal invalid subpart.  The fuel
argument (the buffer length suffices) makes the definition structurally
recursive; every step consumes at least one byte. -/
def utf8LossyGo : Nat → List Nat → List Char
  | 0, _ => []
  | _, [] => []
  | fuel + 1, b :: rest =>
    if b < 128 then Char.ofNat b :: utf8LossyGo fuel rest
    else if 194 ≤ b && b ≤ 223 then
      match rest with
      | c1 :: rest1 =>
        if isContByte c1 then Char.ofNat ((b - 192) * 64 + (c1 - 128)) :: utf8LossyGo fuel rest1
        else replChar :: utf8LossyGo fuel rest
      | [] => [replChar]
    else if 224 ≤ b && b ≤ 239 then
      match rest with
      | c1 :: rest1 =>
        let okC1 : Bool :=
          if b == 224 then decide (160 ≤ c1) && decide (c1 ≤ 191)
          else if b == 237 then decide (128 ≤ c1) && decide (c1 ≤ 159)
          else isContByte c1
        if okC1 then
          match rest1 with
          | c2 :: rest2 =>
            if isContByte c2 then
              Char.ofNat ((b - 224) * 4096 + (c1 - 128) * 64 + (c2 - 128)) :: utf8LossyGo fuel rest2
            else replChar :: utf8LossyGo fuel rest1
          | [] => [replChar]
        else replChar :: utf8LossyGo fuel rest
      | [] => [replChar]
    else if 240 ≤ b && b ≤ 244 then
      match rest with
      | c1 :: rest1 =>
        let okC1 : Bool :=
          if b == 240 then decide (144 ≤ c1) && decide (c1 ≤ 191)
          else if b == 244 then decide (128 ≤ c1) && decide (c1 ≤ 143)
          else isContByte c1
        if okC1 then
          match rest1 with
          | c2 :: rest2 =>
            if isContByte c2 then
              match rest2 with
              | c3 :: rest3 =>
                if isContByte c3 then
                  Char.ofNat ((b - 240) * 262144 + (c1 - 128) * 4096 + (c2 - 128) * 64 + (c3 - 128))
                    :: utf8LossyGo fuel rest3
                else replChar :: utf8LossyGo fuel rest2
              | [] => [replChar]
            else replChar :: utf8LossyGo fuel rest1
          | [] => [replChar]
        else replChar :: utf8LossyGo fuel rest
      | [] => [replChar]
    else replChar :: utf8LossyGo fuel rest

/-- Rust `String::from_utf8_lossy` on a byte buffer. -/
def utf8Lossy (content : List Nat) : List Char := utf8LossyGo content.length content

/-- `FileCat::print_content`: verbose mode writes the lossy UTF-8 decoding with
no trailing newline; the default mode writes each byte through `pcByte` and a
final `writeln!`. -/
def printContent (verbose : Bool) (content : List Nat) : List Char :=
  if verbose then utf8Lossy content
  else (content.map pcByte).flatten ++ ['\n']

/-! ## Path normalization and exclusion
(`FileCat::normalize_path` / `FileCat::should_exclude`, main.rs:148-168) -/

/-- The character map of `path.replace('\\', "/")`. -/
def slashify (c : Char) : Char := if c = '\\' then '/' else c

/-- Rust `str::replace("./", "")`: remove the leftmost occurrence of the two
character pattern and continue after it, in a single left-to-right pass. -/
def removeDotSlash : List Char → List Char
  | '.' :: '/' :: rest => removeDotSlash rest
  | c :: rest => c :: removeDotSlash rest
  | [] => []

/-- `FileCat::normalize_path`: backslashes to slashes, then all occurrences of
the dot-slash marker removed. -/
def normalizePath (p : List Char) : List Char := removeDotSlash (p.map slashify)

/-- Configuration of a `FileCat` value (main.rs:97-108).  `reMatch` models the
`glob` crate's `Pattern::new(..).map(|p| p.matches(..))` call made inside
`should_exclude` on the normalized pattern: `none` models a compilation error
(then `unwrap_or(false)` applies), `some m` the compiled matcher. -/
structure Cfg where
  header : List Char
  verbose : Bool
  hex : Bool
  useColor : Bool
  counter : Bool
  skipNonText : Bool
  excludePatterns : List (List Char)
  reMatch : List Char → Option (List Char → Bool)

/-- `FileCat::should_exclude`: exact match of the normalized path against each
normalized pattern (with or without a leading dot-slash on the pattern), or a
glob match of the recompiled normalized pattern against the normalized path. -/
def shouldExclude (cfg : Cfg) (path : List Char) : Bool :=
  let pathStr := normalizePath path
  (cfg.excludePatterns.any fun pat =>
    let patStr := normalizePath pat
    pathStr == patStr || pathStr == '.' :: '/' :: patStr)
  ||
  (cfg.excludePatterns.any fun pat =>
    match cfg.reMatch (normalizePath pat) with
    | some m => m pathStr
    | none => false)

/-! ## Log messages

Each constructor corresponds to one `print_error!` / `print_warning!` /
`print_info!` invocation in the source; the carried data is the formatted
argument.  The log stream (stderr) is separate from the output sink. -/

/-- The log messages the program can emit. -/
inductive LogMsg where
  /-- warning, expansion: Failed to read path (main.rs:309) -/
  | failedReadPath : LogMsg
  /-- error: No matching files found (main.rs:332) -/
  | noMatchingFiles : LogMsg
  /-- error: Output path is a directory (main.rs:338) -/
  | outputIsDir : LogMsg
  /-- error: Output file already exists (main.rs:343) -/
  | outputExists : LogMsg
  /-- warning: Header does not contain the placeholder (main.rs:349) -/
  | headerNoPlaceholder : LogMsg
  /-- error: No files or directories provided (main.rs:356) -/
  | noFilesProvided : LogMsg
  /-- error: `path` is not a valid file or directory (main.rs:185) -/
  | notValid (path : List Char) : LogMsg
  /-- info: Files processed so far: `n` (main.rs:244) -/
  | filesSoFar (n : Nat) : LogMsg
  /-- info: Total files processed: `n` (main.rs:383) -/
  | total (n : Nat) : LogMsg
deriving DecidableEq

/-! ## Filesystem model

The traversal navigates real directories; we model the part of the filesystem
reachable from one path as a finite tree.  `file none` is a file whose
`fs::File::open`/`read_to_end` fails, `dirErr` a directory whose
`fs::read_dir` fails, `errEntry` a directory child whose `entry?` iteration
step fails, and `invalid` a path for which both `is_file()` and `is_dir()`
are false (broken symlink, permission-denied stat, racing removal). -/

mutual
/-- A filesystem node as observed by the program. -/
inductive FsNode where
  | file (content : Option (List Nat)) : FsNode
  | dir (entries : FsEntries) : FsNode
  | dirErr : FsNode
  | invalid : FsNode

/-- The listing of a directory, in `read_dir` enumeration order. -/
inductive FsEntries where
  | nil : FsEntries
  | errEntry (rest : FsEntries) : FsEntries
  | entry (name : List Char) (node : FsNode) (rest : FsEntries) : FsEntries
end

/-- `Path::is_dir()` for a resolved node (a directory whose listing will later
fail still stats as a directory). -/
def FsNode.isDirB : FsNode → Bool
  | .dir _ => true
  | .dirErr => true
  | _ => false

/-- `Path::exists()` for a resolved node. -/
def FsNode.existsB : FsNode → Bool
  | .invalid => false
  | _ => true

/-- Result of a traversal call: the characters written to the output sink, the
log messages emitted, the updated `file_count`, and whether the call returned
`Err` (which the source propagates with `?`).  Writes that happened before an
error are kept: the sink has already received them. -/
structure TravRes where
  out : List Char
  logs : List LogMsg
  count : Nat
  err : Bool
deriving DecidableEq

/-! ## Header template and colorization -/

/-- The literal placeholder of the header template. -/
def filePlaceholder : List Char := ['\x7b', 'f', 'i', 'l', 'e', '\x7d']

/-- Rust `self.header.replace("\x7bfile\x7d", &display_path)`: every
non-overlapping occurrence of the placeholder, left to right. -/
def replaceFile (repl : List Char) : List Char → List Char
  | '\x7b' :: 'f' :: 'i' :: 'l' :: 'e' :: '\x7d' :: rest => repl ++ replaceFile repl rest
  | c :: rest => c :: replaceFile repl rest
  | [] => []

/-- Rust `args.header.contains("\x7bfile\x7d")`. -/
def containsFilePlaceholder : List Char → Bool
  | '\x7b' :: 'f' :: 'i' :: 'l' :: 'e' :: '\x7d' :: _ => true
  | _ :: rest => containsFilePlaceholder rest
  | [] => false

/-- Models the `colored` crate's `.blue().bold()` styling of the header line:
an ANSI escape prefix and a reset suffix around the text.  No claim depends on
the exact escape bytes. -/
def colorWrap (s : List Char) : List Char :=
  '\x1b' :: '[' :: '1' :: ';' :: '3' :: '4' :: 'm' :: s ++ ['\x1b', '[', '0', 'm']

/-- The marker line written for binary files under skip-non-text
(`writeln!(output, "Non-text file")`, main.rs:232). -/
def nonTextMarker : List Char :=
  ['N', 'o', 'n', '-', 't', 'e', 'x', 't', ' ', 'f', 'i', 'l', 'e', '\n']

/-! ## Per-file processing (`FileCat::process_file`, main.rs:217-252) -/

/-- `FileCat::process_file`.  The whole content is read before anything is
written: an open/read failure returns `Err` with no output and no log.  On
success the header line is written (colorized when enabled), then the content
is rendered: binary content takes the skip-non-text marker or the hex dump
when those flags are set (returning before the counter code), otherwise
`print_content` runs and, when counting is enabled, the counter is incremented
and logged. -/
def procFile (cfg : Cfg) (count : Nat) (path : List Char) (content? : Option (List Nat)) :
    TravRes :=
  match content? with
  | none => ⟨[], [], count, true⟩
  | some data =>
    let display := normalizePath path
    let headerLine := replaceFile display cfg.header
    let headerOut := (if cfg.useColor then colorWrap headerLine else headerLine) ++ ['\n']
    if !isTextFile data && cfg.skipNonText then
      ⟨headerOut ++ nonTextMarker, [], count, false⟩
    else if !isTextFile data && cfg.hex then
      ⟨headerOut ++ printHex data, [], count, false⟩
    else
      let body := printContent cfg.verbose data
      if cfg.counter then ⟨headerOut ++ body, [.filesSoFar (count + 1)], count + 1, false⟩
      else ⟨headerOut ++ body, [], count, false⟩

/-! ## Directory traversal (`FileCat::process_dir` / `process_path`,
main.rs:170-215) -/

/-- The loop body of `FileCat::process_dir` over a directory listing.  A
failing `entry?` returns `Err` immediately.  Each child is first checked for
exclusion; files are processed (with `?`, so a file error aborts the loop);
subdirectories are recursed only when the recursion flag is set and are
skipped silently otherwise, as are children that are neither file nor
directory. -/
def procEntries (cfg : Cfg) (recursive : Bool) (dirPath : List Char) :
    Nat → FsEntries → TravRes
  | count, .nil => ⟨[], [], count, false⟩
  | count, .errEntry _ => ⟨[], [], count, true⟩
  | count, .entry name child rest =>
    let cpath := dirPath ++ '/' :: name
    if shouldExclude cfg cpath then procEntries cfg recursive dirPath count rest
    else
      match child with
      | .file c =>
        let r := procFile cfg count cpath c
        if r.err then r
        else
          let r2 := procEntries cfg recursive dirPath r.count rest
          ⟨r.out ++ r2.out, r.logs ++ r2.logs, r2.count, r2.err⟩
      | .dir ces =>
        if recursive then
          let r := procEntries cfg recursive cpath count ces
          if r.err then r
          else
            let r2 := procEntries cfg recursive dirPath r.count rest
            ⟨r.out ++ r2.out, r.logs ++ r2.logs, r2.count, r2.err⟩
        else procEntries cfg recursive dirPath count rest
      | .dirErr =>
        if recursive then ⟨[], [], count, true⟩
        else procEntries cfg recursive dirPath count rest
      | .invalid => procEntries cfg recursive dirPath count rest

/-- `FileCat::process_path` on a top-level expanded entry: excluded paths are
skipped silently; directories are handed to `process_dir` (regardless of the
recursion flag, which only governs descent into subdirectories); files are
processed; anything else is reported with a non-fatal error message. -/
def procPath (cfg : Cfg) (recursive : Bool) (count : Nat) (path : List Char)
    (node : FsNode) : TravRes :=
  if shouldExclude cfg path then ⟨[], [], count, false⟩
  else
    match node with
    | .dir es => procEntries cfg recursive path count es
    | .dirErr => ⟨[], [], count, true⟩
    | .file c => procFile cfg count path c
    | .invalid => ⟨[], [.notValid path], count, false⟩

/-- The filesystem as seen from the expanded top-level paths. -/
structure Fs where
  resolve : List Char → FsNode

/-- The loop over expanded paths in `main` (main.rs:378-380): each path is
processed with `?`, so the first `Err` aborts the loop and `main` returns it,
leaving the remaining paths unprocessed. -/
def procPaths (cfg : Cfg) (recursive : Bool) (fs : Fs) :
    Nat → List (List Char) → TravRes
  | count, [] => ⟨[], [], count, false⟩
  | count, p :: rest =>
    let r := procPath cfg recursive count p (fs.resolve p)
    if r.err then r
    else
      let r2 := procPaths cfg recursive fs r.count rest
      ⟨r.out ++ r2.out, r.logs ++ r2.logs, r2.count, r2.err⟩

/-! ## `main` (main.rs:324-391) -/

/-- The parsed command-line arguments (struct `Args`, main.rs:49-95). -/
structure Args where
  paths : List (List Char)
  recursive : Bool
  exclude : List (List Char)
  header : List Char
  verbose : Bool
  hex : Bool
  color : Bool
  noLogColor : Bool
  output : Option (List Char)
  counter : Bool
  skipNonText : Bool

/-- External collaborators of `main`: `globFn` models the `glob` crate's
`glob(..)` enumeration of one (backslash-normalized) pattern — `none` is a
`PatternError` (fatal), `some entries` the enumeration where an inner `none`
is a per-entry `GlobError` (warned and skipped); `compileOk` models
`Pattern::new` on an exclusion pattern inside `FileCat::new`; `reMatch` is
the recompiling matcher used by `should_exclude`. -/
structure Ext where
  globFn : List Char → Option (List (Option (List Char)))
  compileOk : List Char → Bool
  reMatch : List Char → Option (List Char → Bool)

/-- `expand_glob_patterns` (main.rs:300-322): patterns are expanded in order;
an invalid pattern makes the whole function return `Err` (warnings already
emitted are kept), an erroring entry logs a warning and is skipped. -/
def expandGlobs (globFn : List Char → Option (List (Option (List Char)))) :
    List (List Char) → List LogMsg × Option (List (List Char))
  | [] => ([], some [])
  | pat :: rest =>
    match globFn (pat.map slashify) with
    | none => ([], none)
    | some entries =>
      let warns := entries.filterMap fun e =>
        match e with
        | none => some LogMsg.failedReadPath
        | some _ => none
      let found := entries.filterMap id
      match expandGlobs globFn rest with
      | (ws, none) => (warns ++ ws, none)
      | (ws, some ps) => (warns ++ ws, some (found ++ ps))

/-- The observable outcome of a whole run: output-sink characters, log
messages, final counter, whether `main` returned `Err`, and whether
`fs::File::create` was invoked on the output path. -/
structure MainRes where
  out : List Char
  logs : List LogMsg
  count : Nat
  err : Bool
  created : Bool
deriving DecidableEq

/-- The tail of `main` after expansion and output validation succeeded
(main.rs:348-390): the header-placeholder warning, the (unreachable when the
expansion is empty) empty-paths check, `FileCat::new` (whose pattern
compilation failure is returned as `Err`), creation of the output file
(modelled as always succeeding — the validated path was just seen not to
exist), the traversal loop, and the final counter log (skipped when the loop
returned `Err`, since `?` exits `main` first). -/
def mainTail (ext : Ext) (fs : Fs) (args : Args) (elogs : List LogMsg)
    (expanded : List (List Char)) : MainRes :=
  let logs1 := elogs ++ (if containsFilePlaceholder args.header then [] else [.headerNoPlaceholder])
  if args.paths.isEmpty then ⟨[], logs1 ++ [.noFilesProvided], 0, false, false⟩
  else if args.exclude.any (fun p => !ext.compileOk p) then ⟨[], logs1, 0, true, false⟩
  else
    let cfg : Cfg := ⟨args.header, args.verbose, args.hex, args.color, args.counter,
      args.skipNonText, args.exclude, ext.reMatch⟩
    let trav := procPaths cfg args.recursive fs 0 expanded
    ⟨trav.out,
      logs1 ++ trav.logs ++ (if args.counter && !trav.err then [.total trav.count] else []),
      trav.count, trav.err, args.output.isSome⟩

/-- `main`: glob expansion (fatal on an invalid pattern), the empty-expansion
early return, output-destination validation, then `mainTail`. -/
def mainRun (ext : Ext) (fs : Fs) (args : Args) : MainRes :=
  match expandGlobs ext.globFn args.paths with
  | (elogs, none) => ⟨[], elogs, 0, true, false⟩
  | (elogs, some expanded) =>
    if expanded.isEmpty then ⟨[], elogs ++ [.noMatchingFiles], 0, false, false⟩
    else
      match args.output with
      | some op =>
        if (fs.resolve op).isDirB then ⟨[], elogs ++ [.outputIsDir], 0, false, false⟩
        else if (fs.resolve op).existsB then ⟨[], elogs ++ [.outputExists], 0, false, false⟩
        else mainTail ext fs args elogs expanded
      | none => mainTail ext fs args elogs expanded

/-! ## Shared concrete examples (used by witnesses and counterexamples) -/

/-- A minimal configuration: plain header, all flags off, no exclusions. -/
def exCfg : Cfg := ⟨['H'], false, false, false, false, false, [], fun _ => none⟩

/-! ## Claim C6: the content classifier -/

/-- The claim's byte predicate, written from the specification's words:
printable ASCII graphic, ASCII whitespace (space, tab, newline, form feed,
carriage return — Rust's ASCII whitespace set), or carriage return. -/
def textByteSpec (b : Nat) : Prop :=
  (33 ≤ b ∧ b ≤ 126) ∨ b = 32 ∨ b = 9 ∨ b = 10 ∨ b = 12 ∨ b = 13

instance (b : Nat) : Decidable (textByteSpec b) := by
  unfold textByteSpec; infer_instance

/-- C6: for every byte buffer, `is_text_file` returns Text exactly when every
byte is printable ASCII graphic, ASCII whitespace, or carriage return (so any
NUL, non-whitespace control character, or high-bit byte anywhere forces
Binary), and the empty buffer classifies as Text. -/
theorem claim_C6 (B : List Nat) :
    (isTextFile B = true ↔ ∀ b ∈ B, textByteSpec b) ∧ isTextFile [] = true := by
  refine ⟨?_, rfl⟩
  simp only [isTextFile, List.all_eq_true, Bool.or_eq_true, isAsciiGraphicB,
    isAsciiWhitespaceB, Bool.and_eq_true, decide_eq_true_eq, beq_iff_eq, textByteSpec]
  constructor
  · intro h b hb
    have := h b hb
    omega
  · intro h b hb
    have := h b hb
    omega

/-- C6 witness: the classifier evaluated through the theorem at concrete
buffers — clean ASCII text is Text, a NUL byte is Binary. -/
theorem claim_C6_witness :
    isTextFile [104, 105, 10] = true ∧ isTextFile [0] = false := by
  constructor
  · exact (claim_C6 [104, 105, 10]).1.mpr (by decide)
  · refine Bool.eq_false_iff.mpr fun hh => ?_
    exact (by decide : ¬ ∀ b ∈ ([0] : List Nat), textByteSpec b) ((claim_C6 [0]).1.mp hh)

/-! ## Claim C8: filtered-printable rendering on clean ASCII -/

/-- The claim's clean-byte predicate, from the specification's words:
printable ASCII graphic, newline, tab, space, or carriage return. -/
def cleanByteSpec (b : Nat) : Prop :=
  (33 ≤ b ∧ b ≤ 126) ∨ b = 10 ∨ b = 9 ∨ b = 32 ∨ b = 13

instance (b : Nat) : Decidable (cleanByteSpec b) := by
  unfold cleanByteSpec; infer_instance

theorem pcByte_clean {b : Nat} (h : cleanByteSpec b) : pcByte b = [Char.ofNat b] := by
  have hb : isCleanByte b = true := by
    simp only [isCleanByte, isAsciiGraphicB, Bool.or_eq_true, Bool.and_eq_true,
      decide_eq_true_eq, beq_iff_eq]
    unfold cleanByteSpec at h
    omega
  simp [pcByte, hb]

theorem flatten_map_singleton {α β : Type} (f : α → β) (l : List α) :
    (l.map fun b => [f b]).flatten = l.map f := by
  induction l with
  | nil => rfl
  | cons a t ih => simp [ih]

/-- Filtered-printable rendering acts as the identity (plus one newline) on
buffers of clean bytes. -/
theorem printContent_clean {l : List Nat} (h : ∀ b ∈ l, cleanByteSpec b) :
    printContent false l = l.map Char.ofNat ++ ['\n'] := by
  unfold printContent
  simp only [if_neg (by simp : ¬ (false : Bool) = true)]
  rw [List.map_congr_left fun b hb => pcByte_clean (h b hb), flatten_map_singleton]

theorem charOfNat_toNat_small : ∀ b, b < 128 → (Char.ofNat b).toNat = b := by decide

/-- C8: on a buffer of clean ASCII text, filtered-printable rendering emits
the buffer unchanged followed by exactly one trailing newline; feeding the
rendered bytes back through the renderer again only appends one more newline
(the spec's sense of idempotence on clean text). -/
theorem claim_C8 (l : List Nat) (h : ∀ b ∈ l, cleanByteSpec b) :
    printContent false l = l.map Char.ofNat ++ ['\n'] ∧
    printContent false ((printContent false l).map Char.toNat) =
      printContent false l ++ ['\n'] := by
  have h1 := printContent_clean h
  refine ⟨h1, ?_⟩
  have hsmall : ∀ b ∈ l, b < 128 := by
    intro b hb
    have := h b hb
    unfold cleanByteSpec at this
    omega
  have hback : (printContent false l).map Char.toNat = l ++ [10] := by
    rw [h1, List.map_append, List.map_map]
    have hl : l.map (Char.toNat ∘ Char.ofNat) = l := by
      have : l.map (Char.toNat ∘ Char.ofNat) = l.map id :=
        List.map_congr_left fun b hb => charOfNat_toNat_small b (hsmall b hb)
      rw [this, List.map_id]
    rw [hl]
    rfl
  rw [hback]
  have h2 : ∀ b ∈ l ++ [10], cleanByteSpec b := by
    intro b hb
    rcases List.mem_append.mp hb with hl | hr
    · exact h b hl
    · simp only [List.mem_singleton] at hr
      subst hr
      unfold cleanByteSpec
      omega
  rw [printContent_clean h2, List.map_append, h1]
  rfl

/-- C8 witness: the theorem applied to the concrete clean buffer for the text
hi followed by a newline. -/
theorem claim_C8_witness :
    printContent false [104, 105, 10] = ['h', 'i', '\n', '\n'] ∧
    printContent false ((printContent false [104, 105, 10]).map Char.toNat) =
      printContent false [104, 105, 10] ++ ['\n'] := by
  have h := claim_C8 [104, 105, 10] (by decide)
  exact ⟨h.1, h.2⟩

/-! ## Claim C9: exclusion is invariant under path normalization -/

/-- The exclusion decision depends on the path only through its
normalization. -/
theorem shouldExclude_congr (cfg : Cfg) {p q : List Char}
    (h : normalizePath p = normalizePath q) :
    shouldExclude cfg p = shouldExclude cfg q := by
  unfold shouldExclude
  rw [h]

/-- C9: for every exclusion-rule set (and any matcher behaviour), paths that
agree after backslash-to-slash conversion, or that differ only by a leading
dot-slash marker, receive the same exclusion verdict. -/
theorem claim_C9 (cfg : Cfg) (p q : List Char) :
    (p.map slashify = q.map slashify → shouldExclude cfg p = shouldExclude cfg q) ∧
    shouldExclude cfg ('.' :: '/' :: p) = shouldExclude cfg p := by
  constructor
  · intro h
    exact shouldExclude_congr cfg (by unfold normalizePath; rw [h])
  · refine shouldExclude_congr cfg ?_
    show removeDotSlash (('.' :: '/' :: p).map slashify) = normalizePath p
    have : ('.' :: '/' :: p).map slashify = '.' :: '/' :: p.map slashify := by
      simp [slashify]
    rw [this]
    rfl

/-- C9 witness: the theorem applied at a configuration with an exclusion rule,
on a backslash/slash pair and on a dot-slash-prefixed path. -/
theorem claim_C9_witness :
    (shouldExclude ⟨['H'], false, false, false, false, false, [['a', '/', 'b']], fun _ => none⟩
        ['a', '\\', 'b'] =
      shouldExclude ⟨['H'], false, false, false, false, false, [['a', '/', 'b']], fun _ => none⟩
        ['a', '/', 'b']) ∧
    shouldExclude ⟨['H'], false, false, false, false, false, [['a', '/', 'b']], fun _ => none⟩
        ['.', '/', 'x'] =
      shouldExclude ⟨['H'], false, false, false, false, false, [['a', '/', 'b']], fun _ => none⟩
        ['x'] := by
  constructor
  · exact (claim_C9 _ ['a', '\\', 'b'] ['a', '/', 'b']).1 (by decide)
  · exact (claim_C9 _ ['x'] ['x']).2

/-! ## Claim C10: per-file output is all-or-nothing on read errors -/

/-- C10: `process_file` reads the whole content before writing anything, so
when the open/read fails it returns the error having written neither the
header line nor any content (and logged nothing, with the counter untouched);
consequently the run loop, hitting such a file, emits nothing for it. -/
theorem claim_C10 :
    (∀ cfg count path, procFile cfg count path none = ⟨[], [], count, true⟩) ∧
    (∀ cfg recursive fs count p rest, fs.resolve p = FsNode.file none →
      shouldExclude cfg p = false →
      procPaths cfg recursive fs count (p :: rest) = ⟨[], [], count, true⟩) := by
  constructor
  · intro cfg count path
    rfl
  · intro cfg recursive fs count p rest hres hexcl
    simp [procPaths, procPath, hres, hexcl, procFile]

/-- C10 witness: the theorem applied to a run whose only expanded path is an
unreadable file. -/
theorem claim_C10_witness :
    procPaths exCfg false ⟨fun _ => FsNode.file none⟩ 0 [['f']] = ⟨[], [], 0, true⟩ := by
  exact claim_C10.2 exCfg false ⟨fun _ => FsNode.file none⟩ 0 ['f'] [] rfl (by decide)

/-! ## Claim C7: hex-dump structure and round trip -/

/-- Whether a character is a lowercase hexadecimal digit. -/
def isLowerHexDigit (c : Char) : Bool :=
  (decide ('0' ≤ c) && decide (c ≤ '9')) || (decide ('a' ≤ c) && decide (c ≤ 'f'))

/-- The numeric value of a lowercase hexadecimal digit character. -/
def hexVal (c : Char) : Nat :=
  if c.toNat ≤ 57 then c.toNat - 48 else c.toNat - 87

/-- Skip a row-offset field: drop the offset digits (which contain no space)
and the two following spaces. -/
def skipOffset (cs : List Char) : List Char :=
  (cs.dropWhile fun c => c != ' ').drop 2

theorem skipOffset_length_le (cs : List Char) : (skipOffset cs).length ≤ cs.length := by
  have h1 : (cs.dropWhile fun c => c != ' ').length ≤ cs.length :=
    (List.dropWhile_sublist _).length_le
  simp only [skipOffset, List.length_drop]
  omega

/-- Extract, in order, the two-lowercase-hex-digit byte fields of a hex dump:
a newline announces the next row, whose offset field is skipped; otherwise a
byte field is two lowercase hex digits followed by a space. -/
def extractAux : List Char → List Nat
  | [] => []
  | c :: rest =>
    if c = '\n' then extractAux (skipOffset rest)
    else
      match rest with
      | [] => []
      | h2 :: rest2 =>
        match rest2 with
        | [] => []
        | sp :: rest3 =>
          if sp == ' ' && isLowerHexDigit c && isLowerHexDigit h2 then
            (16 * hexVal c + hexVal h2) :: extractAux rest3
          else []
termination_by cs => cs.length
decreasing_by
  · simp only [List.length_cons]
    exact Nat.lt_succ_of_le (skipOffset_length_le _)
  · simp only [List.length_cons]
    omega

/-- Parse a whole hex dump back into bytes (the leading offset field of the
first row is skipped, then the fields are extracted in order). -/
def extractBytes (cs : List Char) : List Nat := extractAux (skipOffset cs)

/-- The concatenated byte fields of a chunk of bytes. -/
def fieldsOf (xs : List Nat) : List Char := (xs.map byteField).flatten

/-- The rows of the hex dump of `l`, starting at offset `i`: each row carries
an offset field and the byte fields of the next (up to) 16 bytes. -/
def hexRows (i : Nat) (l : List Nat) : List (List Char) :=
  if l.isEmpty then []
  else (offsetField i ++ fieldsOf (l.take 16)) :: hexRows (i + 16) (l.drop 16)
termination_by l.length
decreasing_by
  simp only [List.length_drop]
  cases l with
  | nil => simp_all [List.isEmpty]
  | cons a t => simp only [List.length_cons]; omega

/-! ### Digit-character facts -/

theorem digitChar_eq_star {n : Nat} (h : 16 ≤ n) : Nat.digitChar n = '*' := by
  unfold Nat.digitChar
  iterate 16 rw [if_neg (by omega)]

theorem digitChar_ne_newline (n : Nat) : Nat.digitChar n ≠ '\n' := by
  by_cases h : n < 16
  · revert h
    revert n
    decide
  · rw [digitChar_eq_star (by omega)]
    decide

theorem digitChar_ne_space (n : Nat) : Nat.digitChar n ≠ ' ' := by
  by_cases h : n < 16
  · revert h
    revert n
    decide
  · rw [digitChar_eq_star (by omega)]
    decide

theorem isLowerHexDigit_digitChar : ∀ n, n < 16 → isLowerHexDigit (Nat.digitChar n) = true := by
  decide

theorem hexVal_digitChar : ∀ n, n < 16 → hexVal (Nat.digitChar n) = n := by
  decide

/-! ### Step equations for the extractor -/

theorem extractAux_nil : extractAux [] = [] := by
  rw [extractAux.eq_def]

theorem extractAux_newline (rest : List Char) :
    extractAux ('\n' :: rest) = extractAux (skipOffset rest) := by
  rw [extractAux.eq_def]
  simp

theorem extractAux_byteField (b : Nat) (hb : b < 256) (Z : List Char) :
    extractAux (byteField b ++ Z) = b :: extractAux Z := by
  have h1 : b / 16 % 16 < 16 := Nat.mod_lt _ (by norm_num)
  have h2 : b % 16 < 16 := Nat.mod_lt _ (by norm_num)
  show extractAux (Nat.digitChar (b / 16 % 16) :: Nat.digitChar (b % 16) :: ' ' :: Z) = _
  rw [extractAux.eq_def]
  simp only [digitChar_ne_newline, if_false, ite_false, if_neg, reduceCtorEq]
  simp [isLowerHexDigit_digitChar _ h1, isLowerHexDigit_digitChar _ h2,
    hexVal_digitChar _ h1, hexVal_digitChar _ h2]
  omega

/-! ### The offset field contains no space before its two terminating spaces -/

theorem mem_hexCharsGo {c : Char} :
    ∀ fuel n, c ∈ hexCharsGo fuel n → ∃ m, c = Nat.digitChar m := by
  intro fuel
  induction fuel with
  | zero =>
    intro n h
    simp [hexCharsGo] at h
    exact ⟨_, h⟩
  | succ f ih =>
    intro n h
    by_cases hn : n < 16
    · simp [hexCharsGo, hn] at h
      exact ⟨_, h⟩
    · simp [hexCharsGo, hn] at h
      rcases h with h | h
      · exact ih _ h
      · exact ⟨_, h⟩

theorem mem_offsetPad {c : Char} {n : Nat} (h : c ∈ offsetPad n) :
    ∃ m, c = Nat.digitChar m := by
  unfold offsetPad at h
  rcases List.mem_append.mp h with h | h
  · exact ⟨0, List.eq_of_mem_replicate h⟩
  · exact mem_hexCharsGo _ _ h

theorem dropWhile_all {α : Type} {p : α → Bool} :
    ∀ {xs ys : List α}, (∀ c ∈ xs, p c = true) → List.dropWhile p (xs ++ ys) = List.dropWhile p ys := by
  intro xs
  induction xs with
  | nil => intro ys _; rfl
  | cons a t ih =>
    intro ys h
    rw [List.cons_append, List.dropWhile_cons, if_pos (h a (List.mem_cons_self a t))]
    exact ih fun c hc => h c (List.mem_cons_of_mem a hc)

theorem skipOffset_offsetField (n : Nat) (rest : List Char) :
    skipOffset (offsetField n ++ rest) = rest := by
  unfold skipOffset offsetField
  rw [List.append_assoc]
  rw [dropWhile_all (fun c hc => by
    obtain ⟨m, rfl⟩ := mem_offsetPad hc
    simp [digitChar_ne_space m])]
  rw [List.cons_append, List.dropWhile_cons]
  simp

/-! ### Round trip -/

theorem extractAux_printHexAux :
    ∀ (l : List Nat) (i : Nat), (∀ b ∈ l, b < 256) → (i % 16 = 0 → i ≠ 0) →
      extractAux (printHexAux i l ++ ['\n']) = l := by
  intro l
  induction l with
  | nil =>
    intro i _ _
    show extractAux ['\n'] = []
    rw [extractAux_newline, show skipOffset [] = [] from rfl, extractAux_nil]
  | cons b rest ih =>
    intro i hb hi
    have hb0 : b < 256 := hb b (List.mem_cons_self b rest)
    have hbr : ∀ x ∈ rest, x < 256 := fun x hx => hb x (List.mem_cons_of_mem b hx)
    have ihr := ih (i + 1) hbr (fun _ => Nat.succ_ne_zero i)
    by_cases h16 : i % 16 = 0
    · have hne := hi h16
      simp only [printHexAux, if_pos h16, if_neg hne]
      simp only [List.append_assoc, List.cons_append, List.nil_append]
      rw [extractAux_newline, skipOffset_offsetField, extractAux_byteField b hb0, ihr]
    · simp only [printHexAux, if_neg h16]
      simp only [List.append_assoc, List.nil_append]
      rw [extractAux_byteField b hb0, ihr]

theorem extractBytes_printHex {l : List Nat} (hb : ∀ b ∈ l, b < 256) :
    extractBytes (printHex l) = l := by
  cases l with
  | nil =>
    show extractAux (skipOffset ['\n']) = []
    rw [show skipOffset ['\n'] = [] from rfl, extractAux_nil]
  | cons b rest =>
    have hb0 : b < 256 := hb b (List.mem_cons_self b rest)
    have hbr : ∀ x ∈ rest, x < 256 := fun x hx => hb x (List.mem_cons_of_mem b hx)
    unfold extractBytes printHex
    simp only [printHexAux, Nat.zero_mod, eq_self_iff_true, if_true, ite_true,
      List.nil_append, List.append_assoc]
    rw [skipOffset_offsetField, extractAux_byteField b hb0,
      extractAux_printHexAux rest 1 hbr (by omega)]

/-! ### Row structure of the hex dump -/

theorem fieldsOf_nil : fieldsOf [] = [] := rfl

theorem fieldsOf_cons (b : Nat) (xs : List Nat) :
    fieldsOf (b :: xs) = byteField b ++ fieldsOf xs := by
  simp [fieldsOf]

theorem hexRows_nil (i : Nat) : hexRows i [] = [] := by
  rw [hexRows]
  simp

theorem hexRows_cons {l : List Nat} (h : l ≠ []) (i : Nat) :
    hexRows i l = (offsetField i ++ fieldsOf (l.take 16)) :: hexRows (i + 16) (l.drop 16) := by
  rw [hexRows]
  simp [h]

/-- Mid-row continuation of the `print_hex` loop: with `k + 1` byte slots left
in the current row, the next `k + 1` bytes contribute only their byte fields. -/
theorem printHexAux_inrow :
    ∀ k, k ≤ 14 → ∀ (l : List Nat) (i : Nat), i % 16 = 15 - k →
      printHexAux i l = fieldsOf (l.take (k + 1)) ++ printHexAux (i + (k + 1)) (l.drop (k + 1)) := by
  intro k
  induction k with
  | zero =>
    intro _ l i hi
    cases l with
    | nil => simp [printHexAux, fieldsOf]
    | cons b rest =>
      have hne : i % 16 ≠ 0 := by omega
      simp [printHexAux, hne, fieldsOf_cons, fieldsOf_nil]
  | succ k ihk =>
    intro hk l i hi
    cases l with
    | nil => simp [printHexAux, fieldsOf]
    | cons b rest =>
      have hne : i % 16 ≠ 0 := by omega
      have hstep : (i + 1) % 16 = 15 - k := by omega
      simp only [printHexAux, if_neg hne, List.nil_append]
      rw [ihk (by omega) rest (i + 1) hstep]
      rw [List.take_succ_cons, List.drop_succ_cons, fieldsOf_cons]
      rw [show i + 1 + (k + 1) = i + (k + 1 + 1) from by omega]
      simp [List.append_assoc]

/-- Peeling one full row off the `print_hex` loop at a row boundary. -/
theorem printHexAux_rowPeel {l : List Nat} (hl : l ≠ []) {i : Nat} (hi : i % 16 = 0) :
    printHexAux i l = (if i = 0 then [] else ['\n']) ++ offsetField i ++ fieldsOf (l.take 16)
      ++ printHexAux (i + 16) (l.drop 16) := by
  cases l with
  | nil => exact absurd rfl hl
  | cons b rest =>
    have h1 : (i + 1) % 16 = 15 - 14 := by omega
    simp only [printHexAux, if_pos hi]
    rw [printHexAux_inrow 14 (by omega) rest (i + 1) h1]
    rw [show i + 1 + 15 = i + 16 from by omega]
    rw [show (16 : Nat) = 15 + 1 from rfl, List.take_succ_cons, List.drop_succ_cons,
      fieldsOf_cons]
    simp [List.append_assoc]

theorem printHexAux_tailRows :
    ∀ (n : Nat) (l : List Nat) (i : Nat), l.length ≤ n → i % 16 = 0 → i ≠ 0 →
      printHexAux i l = ((hexRows i l).map fun r => '\n' :: r).flatten := by
  intro n
  induction n with
  | zero =>
    intro l i hl _ _
    have : l = [] := List.length_eq_zero.mp (Nat.le_zero.mp hl)
    subst this
    simp [printHexAux, hexRows_nil]
  | succ n ih =>
    intro l i hl hi hne
    rcases eq_or_ne l [] with rfl | hlne
    · simp [printHexAux, hexRows_nil]
    · have hlen : 1 ≤ l.length := List.length_pos.mpr hlne
      rw [printHexAux_rowPeel hlne hi, hexRows_cons hlne, if_neg hne]
      simp only [List.map_cons, List.flatten_cons]
      rw [ih (l.drop 16) (i + 16) (by simp only [List.length_drop]; omega) (by omega) (by omega)]
      simp [List.append_assoc]

theorem intercalate_cons_flatten {α : Type} (s a : List α) (rs : List (List α)) :
    List.intercalate s (a :: rs) = a ++ (rs.map fun r => s ++ r).flatten := by
  induction rs generalizing a with
  | nil => simp [List.intercalate]
  | cons r t ih =>
    have h2 := ih r
    simp only [List.intercalate, List.intersperse_cons_cons, List.flatten_cons] at h2 ⊢
    rw [h2]
    simp [List.append_assoc]

/-- The hex dump is its rows separated by newlines, with a final newline. -/
theorem printHex_intercalate (l : List Nat) :
    printHex l = List.intercalate ['\n'] (hexRows 0 l) ++ ['\n'] := by
  unfold printHex
  rcases eq_or_ne l [] with rfl | hne
  · simp [printHexAux, hexRows_nil, List.intercalate]
  · rw [printHexAux_rowPeel hne (show 0 % 16 = 0 from rfl), hexRows_cons hne, if_pos rfl]
    rw [intercalate_cons_flatten]
    rw [printHexAux_tailRows (l.drop 16).length (l.drop 16) 16 le_rfl (by norm_num) (by norm_num)]
    simp [List.append_assoc]

theorem hexRows_length :
    ∀ (n : Nat) (l : List Nat) (i : Nat), l.length ≤ n →
      (hexRows i l).length = (l.length + 15) / 16 := by
  intro n
  induction n with
  | zero =>
    intro l i hl
    have : l = [] := List.length_eq_zero.mp (Nat.le_zero.mp hl)
    subst this
    simp [hexRows_nil]
  | succ n ih =>
    intro l i hl
    rcases eq_or_ne l [] with rfl | hne
    · simp [hexRows_nil]
    · have hlen : 1 ≤ l.length := List.length_pos.mpr hne
      rw [hexRows_cons hne]
      simp only [List.length_cons]
      rw [ih (l.drop 16) (i + 16) (by simp only [List.length_drop]; omega)]
      simp only [List.length_drop]
      omega

theorem mem_fieldsOf {c : Char} :
    ∀ {xs : List Nat}, c ∈ fieldsOf xs → c = ' ' ∨ ∃ m, c = Nat.digitChar m := by
  intro xs
  induction xs with
  | nil => intro h; simp [fieldsOf] at h
  | cons b t ih =>
    intro h
    rw [fieldsOf_cons] at h
    rcases List.mem_append.mp h with h | h
    · unfold byteField at h
      simp at h
      rcases h with h | h | h
      · exact Or.inr ⟨_, h⟩
      · exact Or.inr ⟨_, h⟩
      · exact Or.inl h
    · exact ih h

theorem mem_offsetField {c : Char} {n : Nat} (h : c ∈ offsetField n) :
    c = ' ' ∨ ∃ m, c = Nat.digitChar m := by
  unfold offsetField at h
  rcases List.mem_append.mp h with h | h
  · exact Or.inr (mem_offsetPad h)
  · simp at h
    exact Or.inl h

theorem newline_not_mem_row {c : Char} {n : Nat} {xs : List Nat}
    (h : c ∈ offsetField n ++ fieldsOf xs) : c ≠ '\n' := by
  have : c = ' ' ∨ ∃ m, c = Nat.digitChar m := by
    rcases List.mem_append.mp h with h | h
    · exact mem_offsetField h
    · exact mem_fieldsOf h
  rcases this with rfl | ⟨m, rfl⟩
  · decide
  · exact digitChar_ne_newline m

theorem hexCharsGo_length_le :
    ∀ (fuel n k : Nat), 0 < k → n < 16 ^ k → (hexCharsGo fuel n).length ≤ k := by
  intro fuel
  induction fuel with
  | zero =>
    intro n k hk _
    simp [hexCharsGo]
    omega
  | succ f ih =>
    intro n k hk hn
    by_cases h16 : n < 16
    · simp [hexCharsGo, h16]
      omega
    · simp only [hexCharsGo, if_neg h16, List.length_append, List.length_singleton]
      match k, hk with
      | 1, _ => omega
      | k + 2, _ =>
        have hdiv : n / 16 < 16 ^ (k + 1) := by
          have hpow : 16 ^ (k + 2) = 16 ^ (k + 1) * 16 := by rw [← pow_succ]
          rw [hpow] at hn
          exact (Nat.div_lt_iff_lt_mul (by norm_num)).mpr hn
        have := ih (n / 16) (k + 1) (by omega) hdiv
        omega

theorem offsetPad_length {n : Nat} (h : n < 4294967296) : (offsetPad n).length = 8 := by
  have hl := hexCharsGo_length_le n n 8 (by norm_num) (by norm_num; omega)
  simp only [offsetPad, List.length_append, List.length_replicate, hexChars]
  omega

theorem hexRows_shape :
    ∀ (n : Nat) (l : List Nat) (i : Nat) (r : List Char), l.length ≤ n → r ∈ hexRows i l →
      ('\n' ∉ r) ∧ ∃ off body, r = offsetField off ++ body ∧ off < i + l.length := by
  intro n
  induction n with
  | zero =>
    intro l i r hl hr
    have : l = [] := List.length_eq_zero.mp (Nat.le_zero.mp hl)
    subst this
    rw [hexRows_nil] at hr
    exact absurd hr (List.not_mem_nil r)
  | succ n ih =>
    intro l i r hl hr
    rcases eq_or_ne l [] with rfl | hne
    · rw [hexRows_nil] at hr
      exact absurd hr (List.not_mem_nil r)
    · have hlen : 1 ≤ l.length := List.length_pos.mpr hne
      rw [hexRows_cons hne] at hr
      rcases List.mem_cons.mp hr with rfl | hr
      · refine ⟨fun hmem => (newline_not_mem_row hmem) rfl, i, fieldsOf (l.take 16), rfl, by omega⟩
      · have hdrop : (l.drop 16).length ≤ n := by simp only [List.length_drop]; omega
        obtain ⟨hnl, off, body, rfl, hoff⟩ := ih (l.drop 16) (i + 16) r hdrop hr
        have hne2 : l.drop 16 ≠ [] := by
          intro hnil
          rw [hnil, hexRows_nil] at hr
          exact absurd hr (List.not_mem_nil _)
        have : 1 ≤ (l.drop 16).length := List.length_pos.mpr hne2
        simp only [List.length_drop] at this hoff
        exact ⟨hnl, off, body, rfl, by omega⟩

/-- C7: for every byte buffer, the hex dump round-trips — extracting the
emitted two-lowercase-hex-digit byte fields in order reconstructs the buffer
exactly; the number of rows is the length divided by 16 rounded up; the output
is the rows separated by newlines with a trailing newline after the final row
(and each row, which is newline-free, is prefixed by the zero-padded offset
field — exactly 8 hex digits for any buffer of realistic size — followed by
two spaces). -/
theorem claim_C7 (l : List Nat) (hb : ∀ b ∈ l, b < 256) :
    extractBytes (printHex l) = l ∧
    (hexRows 0 l).length = (l.length + 15) / 16 ∧
    printHex l = List.intercalate ['\n'] (hexRows 0 l) ++ ['\n'] ∧
    ∀ r ∈ hexRows 0 l, ('\n' ∉ r) ∧
      ∃ off body, r = offsetField off ++ body ∧
        (l.length ≤ 4294967296 → (offsetPad off).length = 8) := by
  refine ⟨extractBytes_printHex hb, hexRows_length l.length l 0 le_rfl,
    printHex_intercalate l, ?_⟩
  intro r hr
  obtain ⟨hnl, off, body, rfl, hoff⟩ := hexRows_shape l.length l 0 r le_rfl hr
  exact ⟨hnl, off, body, rfl, fun hlen => offsetPad_length (by omega)⟩

/-- C7 witness: the theorem applied to a concrete three-byte buffer. -/
theorem claim_C7_witness :
    extractBytes (printHex [0, 255, 16]) = [0, 255, 16] ∧
    (hexRows 0 [0, 255, 16]).length = 1 := by
  have h := claim_C7 [0, 255, 16] (by decide)
  refine ⟨h.1, ?_⟩
  rw [h.2.1]
  rfl

/-! ## Run-level helpers and concrete runs -/

/-- A glob collaborator that expands every pattern to itself, literally. -/
def exGlobId : List Char → Option (List (Option (List Char))) := fun pat => some [some pat]

/-- External collaborators for concrete runs: literal glob expansion, all
exclusion patterns compile, no glob matcher. -/
def exExtId : Ext := ⟨exGlobId, fun _ => true, fun _ => none⟩

/-- If a run produced output-sink bytes, it reached the traversal phase: the
early returns of `main` (expansion failure, empty expansion, output-path
validation) all write nothing. -/
theorem mainRun_cases (ext : Ext) (fs : Fs) (args : Args)
    (hout : (mainRun ext fs args).out ≠ []) :
    ∃ elogs expanded, expandGlobs ext.globFn args.paths = (elogs, some expanded) ∧
      mainRun ext fs args = mainTail ext fs args elogs expanded := by
  unfold mainRun at hout ⊢
  rcases hE : expandGlobs ext.globFn args.paths with ⟨elogs, opt⟩
  rw [hE] at hout
  cases opt with
  | none => simp at hout
  | some expanded =>
    refine ⟨elogs, expanded, rfl, ?_⟩
    by_cases hemp : expanded.isEmpty
    · simp [hemp] at hout
    · simp only [Bool.not_eq_true] at hemp
      cases ho : args.output with
      | none => simp [hemp]
      | some p =>
        rw [ho] at hout
        by_cases hdir : (fs.resolve p).isDirB
        · simp [hemp, hdir] at hout
        · by_cases hex2 : (fs.resolve p).existsB
          · simp only [Bool.not_eq_true] at hdir
            simp [hemp, hdir, hex2] at hout
          · simp only [Bool.not_eq_true] at hdir hex2
            simp [hemp, hdir, hex2]

/-- When the traversal tail runs with counting enabled and finishes without an
error, its last log line is the final total, reporting the final counter. -/
theorem mainTail_total (ext : Ext) (fs : Fs) (args : Args) (elogs : List LogMsg)
    (expanded : List (List Char)) (hc : args.counter = true)
    (herr : (mainTail ext fs args elogs expanded).err = false)
    (hout : (mainTail ext fs args elogs expanded).out ≠ []) :
    (mainTail ext fs args elogs expanded).logs.getLast? =
      some (.total (mainTail ext fs args elogs expanded).count) := by
  unfold mainTail at herr hout ⊢
  by_cases hp : args.paths.isEmpty
  · simp [hp] at hout
  · by_cases hcmp : args.exclude.any fun p => !ext.compileOk p
    · simp [hp, hcmp] at herr
    · simp only [Bool.not_eq_true] at hp hcmp
      simp only [hp, hcmp, Bool.false_eq_true, if_false] at herr ⊢
      rw [hc] at herr ⊢
      simp only [herr, Bool.not_false, Bool.true_and, if_true]
      exact List.getLast?_concat _

/-! ## Claim C4: empty path list -/

/-- Arguments with an empty positional path list and defaults otherwise. -/
def exArgsC4 : Args :=
  ⟨[], false, [], filePlaceholder, false, false, false, false, none, false, false⟩

/-- A filesystem with nothing in it. -/
def exFsEmpty : Fs := ⟨fun _ => FsNode.invalid⟩

/-- C4 counterexample: with an empty path list the run logs the error
No matching files found — not the claimed no-files-or-directories-provided
message, whose emitting check sits after the empty-expansion early return and
is therefore unreachable. -/
theorem claim_C4_counterexample :
    mainRun exExtId exFsEmpty exArgsC4 =
      ⟨[], [LogMsg.noMatchingFiles], 0, false, false⟩ ∧
    LogMsg.noFilesProvided ∉ (mainRun exExtId exFsEmpty exArgsC4).logs := by
  decide

/-- C4 (amended): when the list of positional path arguments is empty, the
expansion is empty, so the run reports the error No matching files found and
performs no processing; the dedicated no-files-or-directories-provided
message is never reached. -/
theorem claim_C4_amended (ext : Ext) (fs : Fs) (args : Args) (h : args.paths = []) :
    mainRun ext fs args = ⟨[], [LogMsg.noMatchingFiles], 0, false, false⟩ := by
  unfold mainRun
  rw [h]
  simp [expandGlobs]

/-- C4 witness: the amended theorem applied to a concrete empty-path run. -/
theorem claim_C4_witness :
    mainRun exExtId exFsEmpty exArgsC4 = ⟨[], [LogMsg.noMatchingFiles], 0, false, false⟩ :=
  claim_C4_amended exExtId exFsEmpty exArgsC4 rfl

/-! ## Claim C5: output-path validation -/

/-- C5: when an explicit output path is a directory or already exists, the run
never calls `File::create`, writes nothing to the output sink, and processes
no file; as soon as the expansion is nonempty, the log stream ends with the
corresponding fatal message (directory reported first).  The pre-existing
output file is therefore untouched. -/
theorem claim_C5 (ext : Ext) (fs : Fs) (args : Args) (p : List Char)
    (ho : args.output = some p)
    (hv : (fs.resolve p).isDirB = true ∨ (fs.resolve p).existsB = true) :
    (mainRun ext fs args).created = false ∧
    (mainRun ext fs args).out = [] ∧
    (mainRun ext fs args).count = 0 ∧
    ∀ w ps, expandGlobs ext.globFn args.paths = (w, some ps) → ps ≠ [] →
      (mainRun ext fs args).logs =
        w ++ [if (fs.resolve p).isDirB then LogMsg.outputIsDir else LogMsg.outputExists] := by
  unfold mainRun
  rcases hE : expandGlobs ext.globFn args.paths with ⟨elogs, opt⟩
  cases opt with
  | none =>
    exact ⟨rfl, rfl, rfl, fun w ps heq _ => by simp at heq⟩
  | some expanded =>
    by_cases hemp : expanded.isEmpty
    · refine ⟨by simp [hemp], by simp [hemp], by simp [hemp], ?_⟩
      intro w ps heq hne
      simp only [Prod.mk.injEq, Option.some.injEq] at heq
      obtain ⟨rfl, rfl⟩ := heq
      exact absurd (List.isEmpty_iff.mp hemp) hne
    · rw [ho]
      rcases hd : (fs.resolve p).isDirB with _ | _
      · rcases he : (fs.resolve p).existsB with _ | _
        · rcases hv with hv | hv
          · rw [hd] at hv; exact absurd hv (by simp)
          · rw [he] at hv; exact absurd hv (by simp)
        · refine ⟨by simp [hemp, hd, he], by simp [hemp, hd, he], by simp [hemp, hd, he], ?_⟩
          intro w ps heq _
          simp only [Prod.mk.injEq, Option.some.injEq] at heq
          obtain ⟨rfl, rfl⟩ := heq
          simp [hemp, hd, he]
      · refine ⟨by simp [hemp, hd], by simp [hemp, hd], by simp [hemp, hd], ?_⟩
        intro w ps heq _
        simp only [Prod.mk.injEq, Option.some.injEq] at heq
        obtain ⟨rfl, rfl⟩ := heq
        simp [hemp, hd]

/-- Arguments for the C5 witness run: one path, output directed to an
existing file. -/
def exArgsC5 : Args :=
  ⟨[['a']], false, [], filePlaceholder, false, false, false, false, some ['o'], false, false⟩

/-- A filesystem where the output path exists as a file. -/
def exFsC5 : Fs := ⟨fun p => if p = ['o'] then .file (some []) else .file (some [104])⟩

/-- C5 witness: the theorem applied to a run whose output file already
exists — nothing is created or written and the log ends with the fatal
message. -/
theorem claim_C5_witness :
    (mainRun exExtId exFsC5 exArgsC5).created = false ∧
    (mainRun exExtId exFsC5 exArgsC5).out = [] ∧
    (mainRun exExtId exFsC5 exArgsC5).logs = [LogMsg.outputExists] := by
  have h := claim_C5 exExtId exFsC5 exArgsC5 ['o'] rfl (Or.inr (by decide))
  refine ⟨h.1, h.2.1, ?_⟩
  have h4 := h.2.2.2 [] [['a']] (by decide) (by decide)
  simpa using h4

/-! ## Claim C1: per-entry error handling -/

/-- Arguments for the C1 counterexample: two expanded paths, defaults
otherwise. -/
def exArgsC1 : Args :=
  ⟨[['b'], ['g']], false, [], filePlaceholder, false, false, false, false, none, false, false⟩

/-- A filesystem where the first path is an unreadable file and the second a
readable one. -/
def exFsC1 : Fs := ⟨fun p => if p = ['b'] then .file none else .file (some [104])⟩

/-- C1 counterexample: a run over an unreadable file followed by a readable
one returns the error (aborting before the second path), writes nothing, and
logs nothing — the claimed logged-message-and-continue behaviour does not
happen. -/
theorem claim_C1_counterexample :
    (mainRun exExtId exFsC1 exArgsC1).err = true ∧
    (mainRun exExtId exFsC1 exArgsC1).logs = [] ∧
    (mainRun exExtId exFsC1 exArgsC1).out = [] := by
  decide

/-- C1 (amended): only a top-level entry that is neither a file nor a
directory is converted to a logged message with traversal continuing; an
unreadable file, an unlistable directory, or an erroring directory child
entry makes the processing call return the error, which `main` propagates —
the run aborts at the first such entry and the remaining expanded paths are
not processed (entries processed without error before it are kept). -/
theorem claim_C1_amended :
    (∀ cfg recursive count path, shouldExclude cfg path = false →
      procPath cfg recursive count path .invalid = ⟨[], [.notValid path], count, false⟩) ∧
    (∀ cfg recursive count path, shouldExclude cfg path = false →
      procPath cfg recursive count path (.file none) = ⟨[], [], count, true⟩) ∧
    (∀ cfg recursive count path, shouldExclude cfg path = false →
      procPath cfg recursive count path .dirErr = ⟨[], [], count, true⟩) ∧
    (∀ cfg recursive dirPath count rest,
      procEntries cfg recursive dirPath count (.errEntry rest) = ⟨[], [], count, true⟩) ∧
    (∀ cfg recursive fs count p rest,
      (procPath cfg recursive count p (fs.resolve p)).err = true →
      procPaths cfg recursive fs count (p :: rest) =
        procPath cfg recursive count p (fs.resolve p)) ∧
    (∀ cfg recursive fs count p rest,
      (procPath cfg recursive count p (fs.resolve p)).err = false →
      procPaths cfg recursive fs count (p :: rest) =
        let r := procPath cfg recursive count p (fs.resolve p)
        let r2 := procPaths cfg recursive fs r.count rest
        ⟨r.out ++ r2.out, r.logs ++ r2.logs, r2.count, r2.err⟩) := by
  refine ⟨?_, ?_, ?_, ?_, ?_, ?_⟩
  · intro cfg recursive count path h
    simp [procPath, h]
  · intro cfg recursive count path h
    simp [procPath, h, procFile]
  · intro cfg recursive count path h
    simp [procPath, h]
  · intro cfg recursive dirPath count rest
    simp [procEntries]
  · intro cfg recursive fs count p rest h
    simp only [procPaths, h, if_true, ite_true]
  · intro cfg recursive fs count p rest h
    simp only [procPaths, h, Bool.false_eq_true, if_false, ite_false]

/-- C1 witness: the amended theorem applied to concrete entries — an invalid
path logs and continues, an unreadable file returns the error. -/
theorem claim_C1_witness :
    procPath exCfg false 0 ['x'] .invalid = ⟨[], [.notValid ['x']], 0, false⟩ ∧
    procPath exCfg false 0 ['x'] (.file none) = ⟨[], [], 0, true⟩ := by
  exact ⟨claim_C1_amended.1 exCfg false 0 ['x'] (by decide),
    claim_C1_amended.2.1 exCfg false 0 ['x'] (by decide)⟩

/-! ## Claim C2: directories when recursion is disabled -/

/-- Arguments for the C2 counterexample: one directory path, recursion
disabled. -/
def exArgsC2 : Args :=
  ⟨[['d']], false, [], filePlaceholder, false, false, false, false, none, false, false⟩

/-- A filesystem where the single path is a directory containing one readable
file. -/
def exFsC2 : Fs := ⟨fun _ => .dir (.entry ['f'] (.file (some [104, 105])) .nil)⟩

/-- C2 counterexample: with recursion disabled, a top-level directory IS
descended — its immediate file child is emitted (header line plus content),
contradicting the claim that none of its contents are emitted. -/
theorem claim_C2_counterexample :
    mainRun exExtId exFsC2 exArgsC2 =
      ⟨['d', '/', 'f', '\n', 'h', 'i', '\n'], [], 0, false, false⟩ ∧
    (mainRun exExtId exFsC2 exArgsC2).out ≠ [] := by
  decide

/-- C2 (amended): a top-level directory entry is always handed to the
directory walk, regardless of the recursion flag; with recursion disabled its
immediate file children are still processed, and only its subdirectory
children (including unlistable ones) are skipped silently — they contribute
no output, no log, no error. -/
theorem claim_C2_amended :
    (∀ cfg recursive count path es, shouldExclude cfg path = false →
      procPath cfg recursive count path (.dir es) = procEntries cfg recursive path count es) ∧
    (∀ cfg dirPath count name sub rest,
      procEntries cfg false dirPath count (.entry name (.dir sub) rest) =
        procEntries cfg false dirPath count rest) ∧
    (∀ cfg dirPath count name rest,
      procEntries cfg false dirPath count (.entry name .dirErr rest) =
        procEntries cfg false dirPath count rest) ∧
    (∀ cfg dirPath count name c rest,
      shouldExclude cfg (dirPath ++ '/' :: name) = false →
      procEntries cfg false dirPath count (.entry name (.file c) rest) =
        let r := procFile cfg count (dirPath ++ '/' :: name) c
        if r.err then r
        else
          let r2 := procEntries cfg false dirPath r.count rest
          ⟨r.out ++ r2.out, r.logs ++ r2.logs, r2.count, r2.err⟩) := by
  refine ⟨?_, ?_, ?_, ?_⟩
  · intro cfg recursive count path es h
    simp [procPath, h]
  · intro cfg dirPath count name sub rest
    by_cases h : shouldExclude cfg (dirPath ++ '/' :: name) <;> simp [procEntries, h]
  · intro cfg dirPath count name rest
    by_cases h : shouldExclude cfg (dirPath ++ '/' :: name) <;> simp [procEntries, h]
  · intro cfg dirPath count name c rest h
    simp [procEntries, h]

/-- C2 witness: the amended theorem applied to a concrete directory whose
children are a subdirectory (skipped) and nothing else, with recursion off. -/
theorem claim_C2_witness :
    procPath exCfg false 0 ['d'] (.dir (.entry ['s'] (.dir .nil) .nil)) =
      procEntries exCfg false ['d'] 0 (.entry ['s'] (.dir .nil) .nil) ∧
    procEntries exCfg false ['d'] 0 (.entry ['s'] (.dir .nil) .nil) =
      procEntries exCfg false ['d'] 0 .nil := by
  exact ⟨claim_C2_amended.1 exCfg false 0 ['d'] _ (by decide),
    claim_C2_amended.2.1 exCfg ['d'] 0 ['s'] .nil .nil⟩

/-! ## Claim C3: the processed-file counter -/

/-- Arguments for the C3 counterexample: one path, counter and hex enabled. -/
def exArgsC3 : Args :=
  ⟨[['b']], false, [], filePlaceholder, false, true, false, false, none, true, false⟩

/-- A filesystem where the single path is a readable binary file (one NUL
byte). -/
def exFsC3 : Fs := ⟨fun _ => .file (some [0])⟩

/-- C3 counterexample: with the counter enabled, a binary file rendered
through the hex-dump path is fully processed (header and dump emitted) yet
does not increment the counter and logs no running count — the final total
reads 0 instead of the claimed 1. -/
theorem claim_C3_counterexample :
    (mainRun exExtId exFsC3 exArgsC3).out ≠ [] ∧
    (mainRun exExtId exFsC3 exArgsC3).logs = [LogMsg.total 0] ∧
    LogMsg.filesSoFar 1 ∉ (mainRun exExtId exFsC3 exArgsC3).logs := by
  decide

/-- C3 (amended): with counting enabled, a processed file increments the
running counter and logs it only when its content is rendered through
`print_content` — classified text, or binary with neither skip-non-text nor
hex set; files taking the skip-non-text marker or hex-dump early returns do
not touch the counter.  When a run that produced output finishes without an
error, the final log line is the total, equal to the number of
`print_content`-rendered files. -/
theorem claim_C3_amended :
    (∀ cfg count path data, cfg.counter = true →
      (isTextFile data = true ∨ (cfg.skipNonText = false ∧ cfg.hex = false)) →
      (procFile cfg count path (some data)).count = count + 1 ∧
      (procFile cfg count path (some data)).logs = [.filesSoFar (count + 1)] ∧
      (procFile cfg count path (some data)).err = false) ∧
    (∀ cfg count path data, isTextFile data = false →
      (cfg.skipNonText = true ∨ (cfg.skipNonText = false ∧ cfg.hex = true)) →
      (procFile cfg count path (some data)).count = count ∧
      (procFile cfg count path (some data)).logs = []) ∧
    (∀ ext fs args, args.counter = true → (mainRun ext fs args).err = false →
      (mainRun ext fs args).out ≠ [] →
      (mainRun ext fs args).logs.getLast? = some (.total (mainRun ext fs args).count)) := by
  refine ⟨?_, ?_, ?_⟩
  · intro cfg count path data hc h2
    rcases h2 with ht | ⟨hs, hh⟩
    · simp [procFile, ht, hc]
    · simp [procFile, hs, hh, hc]
  · intro cfg count path data ht h2
    rcases h2 with hs | ⟨hs, hh⟩
    · simp [procFile, ht, hs]
    · simp [procFile, ht, hs, hh]
  · intro ext fs args hc herr hout
    obtain ⟨elogs, expanded, hE, hM⟩ := mainRun_cases ext fs args hout
    rw [hM] at herr hout ⊢
    exact mainTail_total ext fs args elogs expanded hc herr hout

/-- C3 witness: the amended theorem applied to a concrete run — a text file
increments the counter, and a counted error-free run ends its log with the
total. -/
theorem claim_C3_witness :
    (procFile ⟨filePlaceholder, false, false, false, true, false, [], fun _ => none⟩
        0 ['t'] (some [104])).count = 1 ∧
    (mainRun exExtId exFsC2 ⟨[['d']], false, [], filePlaceholder, false, false, false, false,
        none, true, false⟩).logs.getLast? =
      some (.total (mainRun exExtId exFsC2 ⟨[['d']], false, [], filePlaceholder, false, false,
        false, false, none, true, false⟩).count) := by
  refine ⟨?_, ?_⟩
  · exact (claim_C3_amended.1 ⟨filePlaceholder, false, false, false, true, false, [],
      fun _ => none⟩ 0 ['t'] [104] rfl (Or.inl (by decide))).1
  · exact claim_C3_amended.2.2 exExtId exFsC2 _ rfl (by decide) (by decide)

end Filecat
